import Mathlib

/-!
Verification of the `powerivq/summarizer` repository against its
natural-language specification.

The development shallowly embeds the Go sources (`summarizer.go`,
`config.go`, `log.go`, the Gemini wire structs) into Lean.  External
collaborators — the tiktoken tokenizer, the MD5 hash, the Unicode
printability tables, the network backends and the random instance
picker — are modelled as explicit parameters or oracles, exactly as the
spec declares them out of scope.  Everything written by the repository
itself (the chunking loop, the dispatch/failover logic, the cache
protocol, the JSON struct tags, the sanitizer) is translated
line by line from the source.
-/

namespace Summarizer

/-! ## Unicode helpers used by the chunker

Go's `unicode.IsSpace` accepts exactly the characters below (the Latin-1
cases plus the Unicode `White_Space` property ranges); `strings.TrimSpace`
trims them from both ends. -/

/-- Character test of Go's `unicode.IsSpace`, written out as the finite
set of `White_Space` code points. -/
def goIsSpace (c : Char) : Bool :=
  let n := c.toNat
  (0x09 ≤ n && n ≤ 0x0D) || n == 0x20 || n == 0x85 || n == 0xA0 ||
    n == 0x1680 || (0x2000 ≤ n && n ≤ 0x200A) || n == 0x2028 ||
    n == 0x2029 || n == 0x202F || n == 0x205F || n == 0x3000

/-- Embedding of Go's `strings.TrimSpace`. -/
def goTrim (s : String) : String :=
  ⟨((s.data.dropWhile goIsSpace).reverse.dropWhile goIsSpace).reverse⟩

/-- Membership in the sentence-terminal set `".?!。！"` of
`summarizer.go` line 123. -/
def isTerminalMark (c : Char) : Bool :=
  c == '.' || c == '?' || c == '!' || c == '。' || c == '！'

/-- Embedding of `strings.ContainsAny(s, ".?!。！")`. -/
def containsAnyTerminal (s : String) : Bool :=
  s.data.any isTerminalMark

/-- Guard of the sentence-boundary extension loop (`summarizer.go`
line 123): the previous line contains no terminal mark anywhere and is
non-blank after trimming. -/
def extendGuard (prev : String) : Bool :=
  !containsAnyTerminal prev && !(goTrim prev == "")

/-- Embedding of `utf8.DecodeLastRuneInString`: the last rune of the
string together with its UTF-8 byte size; `(U+FFFD, 0)` on the empty
string, as in Go. -/
def lastRuneDecomp (s : String) : Char × Nat :=
  match s.data.getLast? with
  | some c => (c, c.utf8Size)
  | none => (Char.ofNat 0xFFFD, 0)

/-- Boundary-refinement test of `summarizer.go` lines 128–129 (without
the `i != len(texts)` conjunct, which the caller checks): the trimmed
previous line's last rune is a single byte and is none of the terminal
marks. -/
def boundaryDefer (prev : String) : Bool :=
  let p := lastRuneDecomp (goTrim prev)
  p.2 == 1 && !(p.1 == '.') && !(p.1 == '?') && !(p.1 == '!') &&
    !(p.1 == '。') && !(p.1 == '！')

/-! ## The token-budget chunker (`Summarize`, lines 113–131)

The tokenizer is the external parameter `tok`; `promptTokens` is the
token count of the prompt template, computed once before the loop.
Windows are represented by their index ranges `(start, stop)` into the
line list: the loops of lines 118–127 write exactly the lines
`texts[start .. stop)` into the window builder, one `"\n"` after each,
so the range determines the window text.  The outer loop of line 113
can fail to make progress on some inputs, so it is embedded with
explicit fuel: `none` means the fuel ran out. -/

/-- Inner fill loop, `summarizer.go` line 118: append lines while the
running token total is at most 24000. Returns the new position and
token total. -/
def fillLoop (tok : String → Nat) (texts : List String) (i t : Nat) : Nat × Nat :=
  if h : i < texts.length ∧ t ≤ 24000 then
    fillLoop tok texts (i + 1) (t + tok (texts.getD i "") + 1)
  else (i, t)
termination_by texts.length - i
decreasing_by omega

/-- Sentence-boundary extension loop, `summarizer.go` line 123: keep
appending while the previously appended line has no terminal mark and
is non-blank. -/
def extendLoop (tok : String → Nat) (texts : List String) (i t : Nat) : Nat × Nat :=
  if h : i < texts.length ∧ extendGuard (texts.getD (i - 1) "") = true then
    extendLoop tok texts (i + 1) (t + tok (texts.getD i "") + 1)
  else (i, t)
termination_by texts.length - i
decreasing_by omega

/-- One iteration of the outer chunking loop starting at position `i`:
the fill loop, the extension loop, then the boundary-refinement
decrement of lines 128–131. Returns the window range and the next
starting position. -/
def chunkStep (tok : String → Nat) (promptTokens : Nat) (texts : List String)
    (i : Nat) : (Nat × Nat) × Nat :=
  let f := fillLoop tok texts i promptTokens
  let e := extendLoop tok texts f.1 f.2
  let nextI :=
    if e.1 ≠ texts.length ∧ boundaryDefer (texts.getD (e.1 - 1) "") = true
    then e.1 - 1 else e.1
  ((i, e.1), nextI)

/-- Outer chunking loop of `summarizer.go` line 113, with fuel. Returns
the list of window ranges, or `none` if the fuel is exhausted before
every line is consumed. -/
def chunkAux (tok : String → Nat) (promptTokens : Nat) (texts : List String) :
    Nat → Nat → Option (List (Nat × Nat))
  | 0, _ => none
  | fuel + 1, i =>
    if i < texts.length then
      match chunkAux tok promptTokens texts fuel (chunkStep tok promptTokens texts i).2 with
      | some ws => some ((chunkStep tok promptTokens texts i).1 :: ws)
      | none => none
    else some []

/-- Lines of a window: the contiguous run `texts[start .. stop)` that
the builder received. -/
def windowLines (texts : List String) (r : Nat × Nat) : List String :=
  (texts.drop r.1).take (r.2 - r.1)

/-- Text of a window as built at lines 114–126: the prompt template
followed by each line with a `"\n"` appended. -/
def windowText (promptStr : String) (lines : List String) : String :=
  promptStr ++ String.join (lines.map (fun l => l ++ "\n"))

/-- Termination of the outer chunking loop on a given input: some fuel
suffices to consume every line. -/
def chunkTerminates (tok : String → Nat) (promptTokens : Nat)
    (texts : List String) : Prop :=
  ∃ fuel ws, chunkAux tok promptTokens texts fuel 0 = some ws

/-! ## Loop lemmas -/

theorem fillLoop_stop {tok texts i t} (h : ¬(i < texts.length ∧ t ≤ 24000)) :
    fillLoop tok texts i t = (i, t) := by
  rw [fillLoop]; exact dif_neg h

theorem fillLoop_go {tok texts i t} (h : i < texts.length ∧ t ≤ 24000) :
    fillLoop tok texts i t =
      fillLoop tok texts (i + 1) (t + tok (texts.getD i "") + 1) := by
  rw [fillLoop]; exact dif_pos h

theorem extendLoop_stop {tok texts i t}
    (h : ¬(i < texts.length ∧ extendGuard (texts.getD (i - 1) "") = true)) :
    extendLoop tok texts i t = (i, t) := by
  rw [extendLoop]; exact dif_neg h

theorem extendLoop_go {tok texts i t}
    (h : i < texts.length ∧ extendGuard (texts.getD (i - 1) "") = true) :
    extendLoop tok texts i t =
      extendLoop tok texts (i + 1) (t + tok (texts.getD i "") + 1) := by
  rw [extendLoop]; exact dif_pos h

theorem fillLoop_ge (tok : String → Nat) (texts : List String) (i t : Nat) :
    i ≤ (fillLoop tok texts i t).1 := by
  rw [fillLoop]
  split
  · exact le_trans (Nat.le_succ i) (fillLoop_ge tok texts (i + 1) _)
  · exact le_refl i
termination_by texts.length - i
decreasing_by omega

theorem fillLoop_le (tok : String → Nat) (texts : List String) (i t : Nat)
    (h : i ≤ texts.length) : (fillLoop tok texts i t).1 ≤ texts.length := by
  rw [fillLoop]
  split
  · exact fillLoop_le tok texts (i + 1) _ (by omega)
  · exact h
termination_by texts.length - i
decreasing_by omega

theorem extendLoop_ge (tok : String → Nat) (texts : List String) (i t : Nat) :
    i ≤ (extendLoop tok texts i t).1 := by
  rw [extendLoop]
  split
  · exact le_trans (Nat.le_succ i) (extendLoop_ge tok texts (i + 1) _)
  · exact le_refl i
termination_by texts.length - i
decreasing_by omega

theorem extendLoop_le (tok : String → Nat) (texts : List String) (i t : Nat)
    (h : i ≤ texts.length) : (extendLoop tok texts i t).1 ≤ texts.length := by
  rw [extendLoop]
  split
  · exact extendLoop_le tok texts (i + 1) _ (by omega)
  · exact h
termination_by texts.length - i
decreasing_by omega

/-- Shape of one outer-loop iteration: the produced window is
`(i, e)` with `i < e ≤ length`, and the next starting position is the
refinement `if` of lines 128–131. -/
theorem chunkStep_spec (tok : String → Nat) (pt : Nat) (texts : List String)
    (i : Nat) (hi : i < texts.length) (hpt : pt ≤ 24000) :
    ∃ e, chunkStep tok pt texts i =
        ((i, e),
          if e ≠ texts.length ∧ boundaryDefer (texts.getD (e - 1) "") = true
          then e - 1 else e) ∧
      i < e ∧ e ≤ texts.length := by
  refine ⟨(extendLoop tok texts (fillLoop tok texts i pt).1
      (fillLoop tok texts i pt).2).1, rfl, ?_, ?_⟩
  · have h1 : i + 1 ≤ (fillLoop tok texts i pt).1 := by
      rw [fillLoop_go ⟨hi, hpt⟩]; exact fillLoop_ge tok texts (i + 1) _
    have h2 := extendLoop_ge tok texts (fillLoop tok texts i pt).1
      (fillLoop tok texts i pt).2
    omega
  · exact extendLoop_le tok texts _ _ (fillLoop_le tok texts i pt (le_of_lt hi))

/-- Coverage structure of a chunking run: starting at line `s`, the
ranges cover the lines up to `n` in order, each window a nonempty
contiguous run; consecutive windows either abut exactly or overlap in
exactly one line (the line deferred by boundary refinement). -/
inductive Covers (n : Nat) : Nat → List (Nat × Nat) → Prop where
  | nil : Covers n n []
  | abut {i e ws} : i < e → e ≤ n → Covers n e ws → Covers n i ((i, e) :: ws)
  | defer {i e ws} : i < e → e < n → Covers n (e - 1) ws → Covers n i ((i, e) :: ws)

theorem chunkAux_covers (tok : String → Nat) (pt : Nat) (texts : List String)
    (hpt : pt ≤ 24000) :
    ∀ fuel i ws, i ≤ texts.length → chunkAux tok pt texts fuel i = some ws →
      Covers texts.length i ws := by
  intro fuel
  induction fuel with
  | zero => intro i ws _ h; exact absurd h (by simp [chunkAux])
  | succ fuel ih =>
    intro i ws hi h
    rw [chunkAux] at h
    by_cases hlt : i < texts.length
    · rw [if_pos hlt] at h
      obtain ⟨e, hstep, hie, hen⟩ := chunkStep_spec tok pt texts i hlt hpt
      rw [hstep] at h
      cases heq : chunkAux tok pt texts fuel
          (if e ≠ texts.length ∧ boundaryDefer (texts.getD (e - 1) "") = true
           then e - 1 else e) with
      | none => rw [heq] at h; exact absurd h (by simp)
      | some ws' =>
        rw [heq] at h
        simp only [Option.some.injEq] at h
        subst h
        by_cases hc : e ≠ texts.length ∧ boundaryDefer (texts.getD (e - 1) "") = true
        · rw [if_pos hc] at heq
          exact Covers.defer hie (by omega) (ih (e - 1) ws' (by omega) heq)
        · rw [if_neg hc] at heq
          exact Covers.abut hie hen (ih e ws' hen heq)
    · rw [if_neg hlt] at h
      simp only [Option.some.injEq] at h
      subst h
      have : i = texts.length := by omega
      subst this
      exact Covers.nil

/-- Coverage implies no line is dropped or reordered: the original
lines from position `s` on are a sublist of the concatenated window
contents. -/
theorem covers_sublist {texts : List String} :
    ∀ {s ws}, Covers texts.length s ws →
      (texts.drop s).Sublist ((ws.map (windowLines texts)).flatten) := by
  intro s ws h
  induction h with
  | nil => simp [List.drop_length]
  | @abut i e ws h1 h2 _ ih =>
    have hsplit : texts.drop i = windowLines texts (i, e) ++ texts.drop e := by
      rw [windowLines]
      conv_lhs => rw [← List.take_append_drop (e - i) (texts.drop i)]
      rw [List.drop_drop]
      congr 2
      omega
    rw [hsplit]
    simpa using List.Sublist.append_left ih (windowLines texts (i, e))
  | @defer i e ws h1 h2 _ ih =>
    have hsplit : texts.drop i = windowLines texts (i, e) ++ texts.drop e := by
      rw [windowLines]
      conv_lhs => rw [← List.take_append_drop (e - i) (texts.drop i)]
      rw [List.drop_drop]
      congr 2
      omega
    have hsub : (texts.drop e).Sublist (texts.drop (e - 1)) := by
      have : texts.drop e = (texts.drop (e - 1)).drop 1 := by
        rw [List.drop_drop]; congr 1; omega
      rw [this]
      exact List.drop_sublist 1 _
    rw [hsplit]
    simpa using List.Sublist.append_left (hsub.trans ih) (windowLines texts (i, e))

theorem chunkAux_mono (tok : String → Nat) (pt : Nat) (texts : List String) :
    ∀ fuel fuel' i ws, fuel ≤ fuel' → chunkAux tok pt texts fuel i = some ws →
      chunkAux tok pt texts fuel' i = some ws := by
  intro fuel
  induction fuel with
  | zero => intro fuel' i ws _ h; exact absurd h (by simp [chunkAux])
  | succ n ih =>
    intro fuel' i ws hle h
    obtain ⟨m, rfl⟩ : ∃ m, fuel' = m + 1 := ⟨fuel' - 1, by omega⟩
    rw [chunkAux] at h ⊢
    by_cases hlt : i < texts.length
    · rw [if_pos hlt] at h ⊢
      cases heq : chunkAux tok pt texts n (chunkStep tok pt texts i).2 with
      | none => rw [heq] at h; exact absurd h (by simp)
      | some ws' =>
        rw [heq] at h
        rw [ih m (chunkStep tok pt texts i).2 ws' (by omega) heq]
        exact h
    · rw [if_neg hlt] at h ⊢; exact h

/-- Progress of one outer-loop iteration when every line fits under the
soft limit: the next starting position strictly advances. -/
theorem chunkStep_progress (tok : String → Nat) (pt : Nat) (texts : List String)
    (i : Nat) (H : ∀ l ∈ texts, pt + tok l + 1 ≤ 24000) (hi : i < texts.length) :
    i + 1 ≤ (chunkStep tok pt texts i).2 ∧ (chunkStep tok pt texts i).2 ≤ texts.length := by
  have hmem : texts.getD i "" ∈ texts := by
    rw [List.getD_eq_getElem texts "" hi]
    exact List.getElem_mem hi
  have hpt : pt ≤ 24000 := le_trans (by omega) (H _ hmem)
  have h1 : fillLoop tok texts i pt =
      fillLoop tok texts (i + 1) (pt + tok (texts.getD i "") + 1) :=
    fillLoop_go ⟨hi, hpt⟩
  have ht1 : pt + tok (texts.getD i "") + 1 ≤ 24000 := H _ hmem
  have hfle : (fillLoop tok texts i pt).1 ≤ texts.length :=
    fillLoop_le tok texts i pt (le_of_lt hi)
  have hele : (extendLoop tok texts (fillLoop tok texts i pt).1
      (fillLoop tok texts i pt).2).1 ≤ texts.length :=
    extendLoop_le tok texts _ _ hfle
  by_cases h2 : i + 1 < texts.length
  · have h3 : fillLoop tok texts (i + 1) (pt + tok (texts.getD i "") + 1) =
        fillLoop tok texts (i + 2) _ := fillLoop_go ⟨h2, ht1⟩
    have h4 : i + 2 ≤ (fillLoop tok texts i pt).1 := by
      rw [h1, h3]; exact fillLoop_ge tok texts (i + 2) _
    have h6 : i + 2 ≤ (extendLoop tok texts (fillLoop tok texts i pt).1
        (fillLoop tok texts i pt).2).1 :=
      le_trans h4 (extendLoop_ge tok texts _ _)
    simp only [chunkStep]
    constructor <;> split <;> omega
  · have h3 : fillLoop tok texts (i + 1) (pt + tok (texts.getD i "") + 1) =
        (i + 1, pt + tok (texts.getD i "") + 1) :=
      fillLoop_stop (by intro hc; omega)
    have h4 : fillLoop tok texts i pt = (i + 1, pt + tok (texts.getD i "") + 1) := by
      rw [h1, h3]
    have h5 : extendLoop tok texts (i + 1) (pt + tok (texts.getD i "") + 1) =
        (i + 1, pt + tok (texts.getD i "") + 1) :=
      extendLoop_stop (by intro hc; omega)
    simp only [chunkStep, h4, h5]
    have hlen : i + 1 = texts.length := by omega
    rw [if_neg (by intro hc; exact hc.1 hlen)]
    omega

theorem chunkAux_total (tok : String → Nat) (pt : Nat) (texts : List String)
    (H : ∀ l ∈ texts, pt + tok l + 1 ≤ 24000) :
    ∀ k i, texts.length - i ≤ k → ∃ ws, chunkAux tok pt texts (k + 1) i = some ws := by
  intro k
  induction k with
  | zero =>
    intro i hk
    have hn : ¬ i < texts.length := by omega
    exact ⟨[], by rw [chunkAux, if_neg hn]⟩
  | succ n ih =>
    intro i hk
    by_cases hlt : i < texts.length
    · obtain ⟨h1, h2⟩ := chunkStep_progress tok pt texts i H hlt
      obtain ⟨ws', hws'⟩ := ih (chunkStep tok pt texts i).2 (by omega)
      exact ⟨_, by rw [chunkAux, if_pos hlt, hws']⟩
    · exact ⟨[], by rw [chunkAux, if_neg hlt]⟩

/-! ## Claim C1: lossless partition of the line sequence

The claim fails on the code: the boundary refinement of lines 128–131
decrements the read position but does not remove the already-written
line from the window builder, so the deferred line appears both at the
end of one window and at the start of the next. -/

/-- Tokenizer for the C1 counterexample: the first two lines together
overshoot the soft limit, and the second line contains a terminal mark
but ends in a lone single-byte `)`. -/
def c1Tok (s : String) : Nat :=
  if s == "A" then 10000 else if s == "b.)" then 20000 else 10

def c1Lines : List String := ["A", "b.)", "c."]

/-- C1 counterexample: on `c1Lines` the chunker produces the windows
`["A", "b.)"]` and `["b.)", "c."]`; concatenating them and re-reading
the line sequence duplicates the line `"b.)"`, so it does not reproduce
the original sequence. -/
theorem c1_counterexample :
    chunkAux c1Tok 0 c1Lines 10 0 = some [(0, 2), (1, 3)] ∧
    (([(0, 2), (1, 3)] : List (Nat × Nat)).map (windowLines c1Lines)).flatten ≠
      c1Lines := by
  constructor
  · simp [chunkAux, chunkStep, fillLoop, extendLoop, extendGuard, boundaryDefer,
      containsAnyTerminal, isTerminalMark, goTrim, goIsSpace, lastRuneDecomp,
      Char.utf8Size, c1Tok, c1Lines]
  · decide

/-- C1 (amended): the chunker's windows cover the whole line sequence
in order, each window a nonempty contiguous run; consecutive windows
either abut exactly or share exactly one line (the line deferred by
boundary refinement); in particular no line is dropped or reordered —
the original sequence is a sublist of the concatenated windows. -/
theorem c1_lossless_partition_amended (tok : String → Nat) (pt : Nat)
    (texts : List String) (fuel : Nat) (ws : List (Nat × Nat))
    (hpt : pt ≤ 24000) (h : chunkAux tok pt texts fuel 0 = some ws) :
    Covers texts.length 0 ws ∧
      texts.Sublist ((ws.map (windowLines texts)).flatten) := by
  have hc := chunkAux_covers tok pt texts hpt fuel 0 ws (Nat.zero_le _) h
  refine ⟨hc, ?_⟩
  simpa using covers_sublist hc

/-- Witness for C1 at a concrete input. -/
theorem c1_witness :
    Covers 1 0 [(0, 1)] ∧
      (["a."] : List String).Sublist
        ((([(0, 1)] : List (Nat × Nat)).map (windowLines ["a."])).flatten) := by
  have h := c1_lossless_partition_amended (fun _ => 1) 0 ["a."] 2 [(0, 1)]
    (by norm_num)
    (by simp [chunkAux, chunkStep, fillLoop, extendLoop, extendGuard, boundaryDefer,
      containsAnyTerminal, isTerminalMark, goTrim, goIsSpace, lastRuneDecomp,
      Char.utf8Size])
  simpa using h

/-! ## Claim C3: the sentence-boundary extension condition

The code's guard (line 123) is `!strings.ContainsAny(texts[i-1], ".?!。！")`
— no terminal mark anywhere in the line — not "does not end with a
terminal mark" as the claim states. -/

/-- Guard as worded by the claim, for comparison with the source's
`extendGuard`: the previously appended line does not end (after
trimming) with a sentence-terminal mark, and is non-blank. -/
def specEndsGuard (prev : String) : Bool :=
  (match (goTrim prev).data.getLast? with
   | some c => !isTerminalMark c
   | none => false) && !(goTrim prev == "")

def c3Tok (s : String) : Nat := if s == "x. 中" then 30000 else 1

def c3Lines : List String := ["x. 中", "z"]

/-- C3 counterexample: after the soft limit is first exceeded (total
30001 > 24000 with one line consumed), the previously appended line
`"x. 中"` does not end with a terminal mark and is non-blank — the
claim's two conditions hold — yet the extension loop appends nothing,
because the line contains a `.` earlier on, and the chunker starts the
next window at the following line. -/
theorem c3_counterexample :
    fillLoop c3Tok c3Lines 0 0 = (1, 30001) ∧ 24000 < 30001 ∧
    specEndsGuard (c3Lines.getD 0 "") = true ∧
    extendLoop c3Tok c3Lines 1 30001 = (1, 30001) ∧
    chunkAux c3Tok 0 c3Lines 10 0 = some [(0, 1), (1, 2)] := by
  refine ⟨?_, by norm_num, by decide, ?_, ?_⟩ <;>
    simp [chunkAux, chunkStep, fillLoop, extendLoop, extendGuard, boundaryDefer,
      containsAnyTerminal, isTerminalMark, goTrim, goIsSpace, lastRuneDecomp,
      Char.utf8Size, c3Tok, c3Lines]

/-- C3 (amended): once the soft limit is exceeded, the extension loop
keeps appending lines exactly while the previously appended line
contains none of the marks `. ? ! 。 ！` anywhere in the line (not
merely at its end) and is non-blank after trimming: every position the
loop passes satisfies that guard, and if it stops before the input is
exhausted the guard fails at the stopping position. -/
theorem c3_extension_guard_amended (tok : String → Nat) (texts : List String)
    (i t : Nat) (hi : i ≤ texts.length) :
    i ≤ (extendLoop tok texts i t).1 ∧
    (extendLoop tok texts i t).1 ≤ texts.length ∧
    (∀ k, i ≤ k → k < (extendLoop tok texts i t).1 →
      extendGuard (texts.getD (k - 1) "") = true) ∧
    ((extendLoop tok texts i t).1 < texts.length →
      extendGuard (texts.getD ((extendLoop tok texts i t).1 - 1) "") = false) := by
  by_cases h : i < texts.length ∧ extendGuard (texts.getD (i - 1) "") = true
  · rw [extendLoop_go h]
    have ih := c3_extension_guard_amended tok texts (i + 1)
      (t + tok (texts.getD i "") + 1) (by omega)
    refine ⟨by omega, ih.2.1, ?_, ih.2.2.2⟩
    intro k hk1 hk2
    rcases Nat.eq_or_lt_of_le hk1 with rfl | hk
    · exact h.2
    · exact ih.2.2.1 k (by omega) hk2
  · rw [extendLoop_stop h]
    refine ⟨le_refl _, hi, by omega, ?_⟩
    intro hlt
    rw [not_and] at h
    exact eq_false_of_ne_true (h hlt)
termination_by texts.length - i
decreasing_by omega

/-- Witness for C3 at a concrete input. -/
theorem c3_witness :
    1 ≤ (extendLoop (fun _ => 1) ["a"] 1 5).1 ∧
    (extendLoop (fun _ => 1) ["a"] 1 5).1 ≤ (["a"] : List String).length ∧
    (∀ k, 1 ≤ k → k < (extendLoop (fun _ => 1) ["a"] 1 5).1 →
      extendGuard ((["a"] : List String).getD (k - 1) "") = true) ∧
    ((extendLoop (fun _ => 1) ["a"] 1 5).1 < (["a"] : List String).length →
      extendGuard ((["a"] : List String).getD
        ((extendLoop (fun _ => 1) ["a"] 1 5).1 - 1) "") = false) :=
  c3_extension_guard_amended (fun _ => 1) ["a"] 1 5 (by norm_num)

/-! ## Claim C4: termination of the chunking loop

The claim fails on the code: when a single line overshoots the soft
limit on its own, contains a terminal mark somewhere, and its trimmed
tail is a lone single-byte non-terminal character, the refinement
decrement undoes the iteration's whole progress and the loop repeats
the same state forever. -/

def c4Tok (s : String) : Nat := if s == "a. b)" then 30000 else 1

def c4Lines : List String := ["a. b)", "c"]

theorem c4_step_stuck : chunkStep c4Tok 0 c4Lines 0 = ((0, 1), 0) := by
  simp [chunkStep, fillLoop, extendLoop, extendGuard, boundaryDefer,
    containsAnyTerminal, isTerminalMark, goTrim, goIsSpace, lastRuneDecomp,
    Char.utf8Size, c4Tok, c4Lines]

theorem c4_aux_none : ∀ fuel, chunkAux c4Tok 0 c4Lines fuel 0 = none := by
  intro fuel
  induction fuel with
  | zero => rw [chunkAux]
  | succ n ih =>
    rw [chunkAux, if_pos (by norm_num [c4Lines]), c4_step_stuck]
    simp only [ih]

/-- C4 counterexample: on `c4Lines` no amount of fuel lets the outer
chunking loop consume every line — the loop is stuck repeating the same
starting position. -/
theorem c4_counterexample : ¬ chunkTerminates c4Tok 0 c4Lines := by
  rintro ⟨fuel, ws, h⟩
  rw [c4_aux_none fuel] at h
  exact Option.noConfusion h

/-- C4 (amended): the chunking loop terminates, consuming every line,
provided every single line fits under the soft limit together with the
prompt (prompt tokens + line tokens + 1 ≤ 24000), which guarantees
every window takes in at least two lines when two remain and so the
refinement decrement cannot cancel an iteration's progress. -/
theorem c4_termination_amended (tok : String → Nat) (pt : Nat)
    (texts : List String) (H : ∀ l ∈ texts, pt + tok l + 1 ≤ 24000) :
    chunkTerminates tok pt texts := by
  obtain ⟨ws, h⟩ := chunkAux_total tok pt texts H texts.length 0 (by omega)
  exact ⟨texts.length + 1, ws, h⟩

/-- Witness for C4 at a concrete input. -/
theorem c4_witness : chunkTerminates (fun _ => 1) 0 ["a", "b"] :=
  c4_termination_amended (fun _ => 1) 0 ["a", "b"] (by intro l _; norm_num)

/-! ## The backend dispatcher (`requestGpt`, lines 156–196)

The three pools are tried in the fixed order Azure, OpenAI, Gemini.
Each attempt's outcome is an oracle indexed by the attempt number
(`rand.Intn` instance selection and the network are external, so the
oracle already absorbs which instance was picked).  An Azure error
carries `some code` when `errors.As` recognises it as an
`openai.APIError` with that HTTP status, `none` otherwise; OpenAI and
Gemini errors carry their message.  Each call also returns the trace of
attempts made, as `(pool, attempt index)` pairs, so that claims about
"no further attempts" are statements about the trace. -/

inductive PoolTag where
  | azure
  | openaiP
  | gcp
deriving DecidableEq, Repr

structure DispatchEnv where
  azureN : Nat
  openaiN : Nat
  gcpN : Nat
  azAttempt : Nat → Except (Option Nat) String
  opAttempt : Nat → Except String String
  gcAttempt : Nat → Except String String

/-- Azure retry loop, lines 159–171, as a count-down on the remaining
attempts (`remaining = 3 - i`): on success return the completion; on
failure set the `invalidInput` flag when the error is an `APIError`
with HTTP status 400, and continue the loop. Returns the result, the
final flag value and the attempt trace. -/
def azureLoopAux (att : Nat → Except (Option Nat) String) :
    Nat → Nat → Bool → Option String × Bool × List (PoolTag × Nat)
  | 0, _, inv => (none, inv, [])
  | r + 1, k, inv =>
    match att k with
    | .ok s => (some s, inv, [(.azure, k)])
    | .error st =>
      let inv2 := if st == some 400 then true else inv
      let rest := azureLoopAux att r (k + 1) inv2
      (rest.1, rest.2.1, (.azure, k) :: rest.2.2)

/-- The Azure loop entered with `i = 0` and the current flag value. -/
def azureLoop (att : Nat → Except (Option Nat) String) (inv : Bool) :
    Option String × Bool × List (PoolTag × Nat) :=
  azureLoopAux att 3 0 inv

/-- Retry loop for the OpenAI pool (lines 174–182) and the Gemini pool
(lines 185–193): identical shape, no flag. -/
def poolLoopAux (att : Nat → Except String String) (tag : PoolTag) :
    Nat → Nat → Option String × List (PoolTag × Nat)
  | 0, _ => (none, [])
  | r + 1, k =>
    match att k with
    | .ok s => (some s, [(tag, k)])
    | .error _ =>
      let rest := poolLoopAux att tag r (k + 1)
      (rest.1, (tag, k) :: rest.2)

def poolLoop (att : Nat → Except String String) (tag : PoolTag) :
    Option String × List (PoolTag × Nat) :=
  poolLoopAux att tag 3 0

/-- Embedding of `requestGpt` (lines 156–196). `invalidInput` starts
`false` and, having been declared just above the Azure `if`, is still
`false` when the guard `len(c.azureClients) > 0 && !invalidInput` is
evaluated — the guard is the literal translation.  The returned pair
mirrors Go's `(*string, error)`. -/
def requestGptM (env : DispatchEnv) : (Option String × Option String) × List (PoolTag × Nat) :=
  let az :=
    if env.azureN > 0 && !false then azureLoop env.azAttempt false
    else (none, false, [])
  match az.1 with
  | some s => ((some s, none), az.2.2)
  | none =>
    let op := if env.openaiN > 0 then poolLoop env.opAttempt .openaiP else (none, [])
    match op.1 with
    | some s => ((some s, none), az.2.2 ++ op.2)
    | none =>
      let gc := if env.gcpN > 0 then poolLoop env.gcAttempt .gcp else (none, [])
      match gc.1 with
      | some s => ((some s, none), az.2.2 ++ op.2 ++ gc.2)
      | none => ((none, some "all retries have failed"), az.2.2 ++ op.2 ++ gc.2)

/-! ## Specification-side dispatcher, written from the words of claim C5:
pools in fixed priority order, the attempts `0, 1, 2` within a pool,
stop at the first success, skip empty pools, and a single flattened
exhaustion error otherwise. -/

/-- Attempts of one pool in the listed order, stopping at the first
success; the trace records every attempt made. -/
def specAttempts {ε : Type} (att : Nat → Except ε String) (tag : PoolTag) :
    List Nat → Option String × List (PoolTag × Nat)
  | [] => (none, [])
  | k :: ks =>
    match att k with
    | .ok s => (some s, [(tag, k)])
    | .error _ =>
      let rest := specAttempts att tag ks
      (rest.1, (tag, k) :: rest.2)

/-- A pool: at most the 3 attempts `0, 1, 2`; an empty pool is skipped. -/
def specPool {ε : Type} (n : Nat) (att : Nat → Except ε String) (tag : PoolTag) :
    Option String × List (PoolTag × Nat) :=
  if n > 0 then specAttempts att tag [0, 1, 2] else (none, [])

/-- The dispatcher as claim C5 words it: Azure, then OpenAI, then
Gemini; first success wins without touching later pools; all-fail (or
all-empty) yields the single flattened exhaustion error. -/
def dispatchSpecC5 (env : DispatchEnv) : (Option String × Option String) × List (PoolTag × Nat) :=
  match specPool env.azureN env.azAttempt PoolTag.azure with
  | (some s, t1) => ((some s, none), t1)
  | (none, t1) =>
    match specPool env.openaiN env.opAttempt PoolTag.openaiP with
    | (some s, t2) => ((some s, none), t1 ++ t2)
    | (none, t2) =>
      match specPool env.gcpN env.gcAttempt PoolTag.gcp with
      | (some s, t3) => ((some s, none), t1 ++ t2 ++ t3)
      | (none, t3) => ((none, some "all retries have failed"), t1 ++ t2 ++ t3)

def poolRank : PoolTag → Nat
  | .azure => 0
  | .openaiP => 1
  | .gcp => 2

/-- Number of attempts recorded against one pool in a trace. -/
def countTag (tr : List (PoolTag × Nat)) (t : PoolTag) : Nat :=
  (tr.filter (fun p => p.1 == t)).length

/-! ## Dispatcher lemmas -/

/-- The Azure loop computes, in result and trace, exactly the
spec-side attempt sequence; the `invalidInput` flag value influences
neither. -/
theorem azureLoopAux_spec (att : Nat → Except (Option Nat) String) :
    ∀ r k inv,
      (azureLoopAux att r k inv).1 =
        (specAttempts att PoolTag.azure (List.range' k r)).1 ∧
      (azureLoopAux att r k inv).2.2 =
        (specAttempts att PoolTag.azure (List.range' k r)).2 := by
  intro r
  induction r with
  | zero => intro k inv; exact ⟨rfl, rfl⟩
  | succ n ih =>
    intro k inv
    have hr : List.range' k (n + 1) = k :: List.range' (k + 1) n := rfl
    rw [hr]
    cases h : att k with
    | ok s => simp [azureLoopAux, specAttempts, h]
    | error st =>
      simp only [azureLoopAux, specAttempts, h]
      exact ⟨(ih (k + 1) _).1, by simp [(ih (k + 1) _).2]⟩

theorem poolLoopAux_spec (att : Nat → Except String String) (tag : PoolTag) :
    ∀ r k, poolLoopAux att tag r k = specAttempts att tag (List.range' k r) := by
  intro r
  induction r with
  | zero => intro k; rfl
  | succ n ih =>
    intro k
    have hr : List.range' k (n + 1) = k :: List.range' (k + 1) n := rfl
    rw [hr]
    cases h : att k with
    | ok s => simp [poolLoopAux, specAttempts, h]
    | error e => simp [poolLoopAux, specAttempts, h, ih (k + 1)]

/-- The dispatcher equals its specification-side rendition. -/
theorem requestGptM_spec_eq (env : DispatchEnv) :
    requestGptM env = dispatchSpecC5 env := by
  have haz := azureLoopAux_spec env.azAttempt 3 0 false
  have hop := poolLoopAux_spec env.opAttempt PoolTag.openaiP 3 0
  have hgc := poolLoopAux_spec env.gcAttempt PoolTag.gcp 3 0
  have hr : List.range' 0 3 = [0, 1, 2] := rfl
  rw [hr] at haz hop hgc
  simp only [requestGptM, dispatchSpecC5, azureLoop, poolLoop, specPool,
    Bool.not_false, Bool.and_true]
  by_cases ha : env.azureN > 0
  · simp only [ha, if_pos, decide_True]
    rcases hS : specAttempts env.azAttempt PoolTag.azure [0, 1, 2] with ⟨r1, t1⟩
    rw [hS] at haz
    rcases hA : azureLoopAux env.azAttempt 3 0 false with ⟨ar, af, atr⟩
    rw [hA] at haz
    obtain ⟨haz1, haz2⟩ := haz
    simp only at haz1 haz2
    subst haz1; subst haz2
    simp only [decide_True, if_pos]
    cases ar with
    | some s => rfl
    | none =>
      by_cases hb : env.openaiN > 0
      · simp only [hb, if_pos]
        rw [hop]
        rcases hO : specAttempts env.opAttempt PoolTag.openaiP [0, 1, 2] with ⟨r2, t2⟩
        cases r2 with
        | some s => rfl
        | none =>
          by_cases hc : env.gcpN > 0
          · simp only [hc, if_pos]
            rw [hgc]
            rcases hG : specAttempts env.gcAttempt PoolTag.gcp [0, 1, 2] with ⟨r3, t3⟩
            cases r3 <;> rfl
          · simp only [hc, if_neg, ite_false]
            try rfl
      · simp only [hb, if_neg, ite_false]
        by_cases hc : env.gcpN > 0
        · simp only [hc, if_pos]
          rw [hgc]
          rcases hG : specAttempts env.gcAttempt PoolTag.gcp [0, 1, 2] with ⟨r3, t3⟩
          cases r3 <;> rfl
        · simp only [hc, if_neg, ite_false]
          try rfl
  · simp only [ha, decide_False, if_neg, ite_false]
    by_cases hb : env.openaiN > 0
    · simp only [hb, if_pos]
      rw [hop]
      rcases hO : specAttempts env.opAttempt PoolTag.openaiP [0, 1, 2] with ⟨r2, t2⟩
      cases r2 with
      | some s => rfl
      | none =>
        by_cases hc : env.gcpN > 0
        · simp only [hc, if_pos]
          rw [hgc]
          rcases hG : specAttempts env.gcAttempt PoolTag.gcp [0, 1, 2] with ⟨r3, t3⟩
          cases r3 <;> rfl
        · simp only [hc, if_neg, ite_false]
          try rfl
    · simp only [hb, if_neg, ite_false]
      by_cases hc : env.gcpN > 0
      · simp only [hc, if_pos]
        rw [hgc]
        rcases hG : specAttempts env.gcAttempt PoolTag.gcp [0, 1, 2] with ⟨r3, t3⟩
        cases r3 <;> rfl
      · simp only [hc, if_neg, ite_false]
        try rfl

theorem specAttempts_tags {ε : Type} (att : Nat → Except ε String) (tag : PoolTag) :
    ∀ ks, ∀ p ∈ (specAttempts att tag ks).2, p.1 = tag := by
  intro ks
  induction ks with
  | nil => intro p hp; simp [specAttempts] at hp
  | cons k ks ih =>
    intro p hp
    cases h : att k with
    | ok s =>
      simp only [specAttempts, h] at hp
      simp at hp
      rw [hp]
    | error e =>
      simp only [specAttempts, h] at hp
      simp at hp
      rcases hp with rfl | hp
      · rfl
      · exact ih p hp

theorem specAttempts_len {ε : Type} (att : Nat → Except ε String) (tag : PoolTag) :
    ∀ ks, (specAttempts att tag ks).2.length ≤ ks.length := by
  intro ks
  induction ks with
  | nil => simp [specAttempts]
  | cons k ks ih =>
    cases h : att k with
    | ok s => simp [specAttempts, h]
    | error e => simp only [specAttempts, h]; simpa using ih

theorem specPool_tags {ε : Type} (n : Nat) (att : Nat → Except ε String)
    (tag : PoolTag) : ∀ p ∈ (specPool n att tag).2, p.1 = tag := by
  intro p hp
  unfold specPool at hp
  split at hp
  · exact specAttempts_tags att tag _ p hp
  · simp at hp

theorem specPool_len {ε : Type} (n : Nat) (att : Nat → Except ε String)
    (tag : PoolTag) : (specPool n att tag).2.length ≤ 3 := by
  unfold specPool
  split
  · exact specAttempts_len att tag [0, 1, 2]
  · simp

/-- Every dispatch trace splits into an Azure block, an OpenAI block
and a Gemini block, in that order, each of at most 3 attempts. -/
theorem dispatchSpec_trace (env : DispatchEnv) :
    ∃ t1 t2 t3,
      (dispatchSpecC5 env).2 = t1 ++ t2 ++ t3 ∧
      (∀ p ∈ t1, p.1 = PoolTag.azure) ∧
      (∀ p ∈ t2, p.1 = PoolTag.openaiP) ∧
      (∀ p ∈ t3, p.1 = PoolTag.gcp) ∧
      t1.length ≤ 3 ∧ t2.length ≤ 3 ∧ t3.length ≤ 3 := by
  unfold dispatchSpecC5
  have g1 := specPool_tags env.azureN env.azAttempt PoolTag.azure
  have g2 := specPool_tags env.openaiN env.opAttempt PoolTag.openaiP
  have g3 := specPool_tags env.gcpN env.gcAttempt PoolTag.gcp
  have l1 := specPool_len env.azureN env.azAttempt PoolTag.azure
  have l2 := specPool_len env.openaiN env.opAttempt PoolTag.openaiP
  have l3 := specPool_len env.gcpN env.gcAttempt PoolTag.gcp
  rcases h1 : specPool env.azureN env.azAttempt PoolTag.azure with ⟨r1, t1⟩
  rw [h1] at g1 l1
  cases r1 with
  | some s => exact ⟨t1, [], [], by simp, g1, by simp, by simp, l1, by simp, by simp⟩
  | none =>
    rcases h2 : specPool env.openaiN env.opAttempt PoolTag.openaiP with ⟨r2, t2⟩
    rw [h2] at g2 l2
    cases r2 with
    | some s => exact ⟨t1, t2, [], by simp, g1, g2, by simp, l1, l2, by simp⟩
    | none =>
      rcases h3 : specPool env.gcpN env.gcAttempt PoolTag.gcp with ⟨r3, t3⟩
      rw [h3] at g3 l3
      cases r3 with
      | some s => exact ⟨t1, t2, t3, by simp, g1, g2, g3, l1, l2, l3⟩
      | none => exact ⟨t1, t2, t3, by simp, g1, g2, g3, l1, l2, l3⟩

theorem countTag_append (tr1 tr2 : List (PoolTag × Nat)) (t : PoolTag) :
    countTag (tr1 ++ tr2) t = countTag tr1 t + countTag tr2 t := by
  simp [countTag, List.filter_append]

theorem countTag_eq_zero {tr : List (PoolTag × Nat)} {tag t : PoolTag}
    (h : ∀ p ∈ tr, p.1 = tag) (hne : tag ≠ t) : countTag tr t = 0 := by
  induction tr with
  | nil => rfl
  | cons p ps ih =>
    have hp : p.1 = tag := h p (List.mem_cons_self _ _)
    have hps : ∀ q ∈ ps, q.1 = tag := fun q hq => h q (List.mem_cons_of_mem _ hq)
    simp only [countTag, List.filter_cons]
    rw [hp]
    simp only [beq_eq_false_iff_ne.mpr hne, Bool.false_eq_true, if_false]
    exact ih hps

theorem countTag_le_length (tr : List (PoolTag × Nat)) (t : PoolTag) :
    countTag tr t ≤ tr.length :=
  List.length_filter_le _ _

theorem pairwise_rank_of_tags {tr : List (PoolTag × Nat)} {tag : PoolTag}
    (h : ∀ p ∈ tr, p.1 = tag) :
    tr.Pairwise (fun a b => poolRank a.1 ≤ poolRank b.1) := by
  induction tr with
  | nil => exact List.Pairwise.nil
  | cons p ps ih =>
    refine List.Pairwise.cons ?_ (ih fun q hq => h q (List.mem_cons_of_mem _ hq))
    intro q hq
    rw [h p (List.mem_cons_self _ _), h q (List.mem_cons_of_mem _ hq)]

theorem trace_pairwise {t1 t2 t3 : List (PoolTag × Nat)}
    (h1 : ∀ p ∈ t1, p.1 = PoolTag.azure)
    (h2 : ∀ p ∈ t2, p.1 = PoolTag.openaiP)
    (h3 : ∀ p ∈ t3, p.1 = PoolTag.gcp) :
    (t1 ++ t2 ++ t3).Pairwise (fun a b => poolRank a.1 ≤ poolRank b.1) := by
  rw [List.pairwise_append]
  refine ⟨?_, pairwise_rank_of_tags h3, ?_⟩
  · rw [List.pairwise_append]
    refine ⟨pairwise_rank_of_tags h1, pairwise_rank_of_tags h2, ?_⟩
    intro a ha b hb
    rw [h1 a ha, h2 b hb]
    decide
  · intro a ha b hb
    rw [h3 b hb]
    rcases List.mem_append.mp ha with h | h
    · rw [h1 a h]; decide
    · rw [h2 a h]; decide

/-- Every dispatch call returns either a completion with no error, or
no completion with exactly the flattened exhaustion error. -/
theorem dispatchSpec_shape (env : DispatchEnv) :
    (∃ s tr, dispatchSpecC5 env = ((some s, none), tr)) ∨
    (∃ tr, dispatchSpecC5 env = ((none, some "all retries have failed"), tr)) := by
  unfold dispatchSpecC5
  rcases specPool env.azureN env.azAttempt PoolTag.azure with ⟨r1, t1⟩
  cases r1 with
  | some s => exact Or.inl ⟨s, t1, rfl⟩
  | none =>
    rcases specPool env.openaiN env.opAttempt PoolTag.openaiP with ⟨r2, t2⟩
    cases r2 with
    | some s => exact Or.inl ⟨s, t1 ++ t2, rfl⟩
    | none =>
      rcases specPool env.gcpN env.gcAttempt PoolTag.gcp with ⟨r3, t3⟩
      cases r3 with
      | some s => exact Or.inl ⟨s, t1 ++ t2 ++ t3, rfl⟩
      | none => exact Or.inr ⟨t1 ++ t2 ++ t3, rfl⟩

theorem requestGptM_shape (env : DispatchEnv) :
    (∃ s tr, requestGptM env = ((some s, none), tr)) ∨
    (∃ tr, requestGptM env = ((none, some "all retries have failed"), tr)) := by
  rw [requestGptM_spec_eq]
  exact dispatchSpec_shape env

/-! ## Claim C5: pool order, attempt bound, early exit, flattened error -/

/-- C5: the dispatcher coincides with the specification-side dispatcher
(pools in the fixed priority order Azure, OpenAI, Gemini; at most 3
attempts per pool; the first success returned immediately with no later
pool touched; empty pools skipped); its attempt trace carries at most 3
attempts per pool and is ordered by pool priority; and whenever no
completion is produced the call fails with exactly the single flattened
exhaustion error, with no per-backend detail. -/
theorem c5_dispatch_refinement (env : DispatchEnv) :
    requestGptM env = dispatchSpecC5 env ∧
    countTag (requestGptM env).2 PoolTag.azure ≤ 3 ∧
    countTag (requestGptM env).2 PoolTag.openaiP ≤ 3 ∧
    countTag (requestGptM env).2 PoolTag.gcp ≤ 3 ∧
    (requestGptM env).2.Pairwise (fun a b => poolRank a.1 ≤ poolRank b.1) ∧
    ((requestGptM env).1.1 = none →
      (requestGptM env).1 = (none, some "all retries have failed")) := by
  obtain ⟨t1, t2, t3, htr, g1, g2, g3, l1, l2, l3⟩ := dispatchSpec_trace env
  have heq := requestGptM_spec_eq env
  have htr2 : (requestGptM env).2 = t1 ++ t2 ++ t3 := by rw [heq]; exact htr
  refine ⟨heq, ?_, ?_, ?_, ?_, ?_⟩
  · rw [htr2, countTag_append, countTag_append]
    have z2 := countTag_eq_zero g2 (t := PoolTag.azure) (by decide)
    have z3 := countTag_eq_zero g3 (t := PoolTag.azure) (by decide)
    have := countTag_le_length t1 PoolTag.azure
    omega
  · rw [htr2, countTag_append, countTag_append]
    have z1 := countTag_eq_zero g1 (t := PoolTag.openaiP) (by decide)
    have z3 := countTag_eq_zero g3 (t := PoolTag.openaiP) (by decide)
    have := countTag_le_length t2 PoolTag.openaiP
    omega
  · rw [htr2, countTag_append, countTag_append]
    have z1 := countTag_eq_zero g1 (t := PoolTag.gcp) (by decide)
    have z2 := countTag_eq_zero g2 (t := PoolTag.gcp) (by decide)
    have := countTag_le_length t3 PoolTag.gcp
    omega
  · rw [htr2]; exact trace_pairwise g1 g2 g3
  · intro hnone
    rcases requestGptM_shape env with ⟨s, tr, hEq⟩ | ⟨tr, hEq⟩
    · rw [hEq] at hnone; exact absurd hnone (by simp)
    · rw [hEq]

/-- Dispatcher environment with every pool empty, for the C5 witness. -/
def c5EnvEmpty : DispatchEnv :=
  { azureN := 0, openaiN := 0, gcpN := 0,
    azAttempt := fun _ => .error none,
    opAttempt := fun _ => .error "",
    gcAttempt := fun _ => .error "" }

/-- Witness for C5 at a concrete environment: with every pool empty the
dispatcher agrees with the spec-side dispatcher and fails with exactly
the flattened exhaustion error. -/
theorem c5_witness :
    requestGptM c5EnvEmpty = dispatchSpecC5 c5EnvEmpty ∧
    (requestGptM c5EnvEmpty).1 = (none, some "all retries have failed") :=
  ⟨(c5_dispatch_refinement c5EnvEmpty).1,
   (c5_dispatch_refinement c5EnvEmpty).2.2.2.2.2 (by decide)⟩

/-! ## Claim C2: scope of the `invalidInput` flag

The claim fails on the code: the flag is set inside the Azure retry
loop (line 168) but consulted only in the `if` of line 158, which was
already evaluated before the loop ran — so after a 400 rejection the
remaining attempts of the 3-attempt loop still hit the Azure pool. -/

/-- Dispatcher environment for the C2 counterexample: one Azure client
whose first attempt is rejected with HTTP 400, one OpenAI client that
succeeds. -/
def c2Env : DispatchEnv :=
  { azureN := 1, openaiN := 1, gcpN := 0,
    azAttempt := fun k => if k == 0 then .error (some 400) else .error none,
    opAttempt := fun _ => .ok "op success",
    gcAttempt := fun _ => .error "unused" }

/-- C2 counterexample: the first Azure attempt fails with HTTP status
400, yet attempts 1 and 2 are still made against the Azure pool within
the same call — the trace records all three Azure attempts before the
OpenAI pool is tried. -/
theorem c2_counterexample :
    c2Env.azAttempt 0 = .error (some 400) ∧
    requestGptM c2Env = ((some "op success", none),
      [(PoolTag.azure, 0), (PoolTag.azure, 1), (PoolTag.azure, 2),
       (PoolTag.openaiP, 0)]) ∧
    (PoolTag.azure, 1) ∈ (requestGptM c2Env).2 ∧
    (PoolTag.azure, 2) ∈ (requestGptM c2Env).2 := by
  refine ⟨rfl, by decide, by decide, by decide⟩

theorem poolLoop_mem_first (att : Nat → Except String String) (tag : PoolTag) :
    (tag, 0) ∈ (poolLoop att tag).2 := by
  cases h : att 0 <;> simp [poolLoop, poolLoopAux, h]

/-- When the Azure pool is present and produces no completion, the
dispatch trace starts with the Azure loop's trace, and the first OpenAI
attempt follows whenever that pool is present. -/
theorem requestGptM_az_failed_trace (env : DispatchEnv) (hn : 0 < env.azureN)
    (hnone : (azureLoop env.azAttempt false).1 = none) :
    ∃ rest, (requestGptM env).2 = (azureLoop env.azAttempt false).2.2 ++ rest ∧
      (0 < env.openaiN → (PoolTag.openaiP, 0) ∈ rest) := by
  unfold requestGptM
  have hcond : (decide (env.azureN > 0) && !false) = true := by simp [hn]
  rcases hA : azureLoop env.azAttempt false with ⟨r, f, tr⟩
  rw [hA] at hnone
  simp only at hnone
  subst hnone
  simp only [hcond, if_true, hA]
  by_cases hop : 0 < env.openaiN
  · have hcop : env.openaiN > 0 := hop
    simp only [hcop, if_pos]
    rcases hO : poolLoop env.opAttempt PoolTag.openaiP with ⟨ro, tro⟩
    have hmem : (PoolTag.openaiP, 0) ∈ tro := by
      have h := poolLoop_mem_first env.opAttempt PoolTag.openaiP
      rw [hO] at h
      exact h
    cases ro with
    | some s => exact ⟨tro, rfl, fun _ => hmem⟩
    | none =>
      rcases hG : (if env.gcpN > 0 then poolLoop env.gcAttempt PoolTag.gcp
          else (none, [])) with ⟨rg, trg⟩
      cases rg with
      | some s =>
        exact ⟨tro ++ trg, by simp [List.append_assoc], fun _ => List.mem_append_left _ hmem⟩
      | none =>
        exact ⟨tro ++ trg, by simp [List.append_assoc], fun _ => List.mem_append_left _ hmem⟩
  · have hcop : ¬ env.openaiN > 0 := hop
    simp only [hcop, if_neg, ite_false]
    rcases hG : (if env.gcpN > 0 then poolLoop env.gcAttempt PoolTag.gcp
        else (none, [])) with ⟨rg, trg⟩
    cases rg with
    | some s => exact ⟨trg, by simp, fun h => h.elim⟩
    | none => exact ⟨trg, by simp, fun h => h.elim⟩


/-- C2 (amended): a 400-rejected Azure attempt does set the
`invalidInput` mark, but the mark is consulted only by the `if` that
was evaluated before the Azure loop began, so it stops nothing: all 3
attempts of the Azure loop still run within the same call, and
subsequent pools are still tried. -/
theorem c2_flag_scope_amended (env : DispatchEnv) (hn : 0 < env.azureN)
    (e0 e1 e2 : Option Nat)
    (h0 : env.azAttempt 0 = .error e0)
    (h1 : env.azAttempt 1 = .error e1)
    (h2 : env.azAttempt 2 = .error e2)
    (h400 : e0 = some 400 ∨ e1 = some 400 ∨ e2 = some 400) :
    (azureLoop env.azAttempt false).2.1 = true ∧
    (azureLoop env.azAttempt false).2.2 =
      [(PoolTag.azure, 0), (PoolTag.azure, 1), (PoolTag.azure, 2)] ∧
    (∀ j, j < 3 → (PoolTag.azure, j) ∈ (requestGptM env).2) ∧
    (0 < env.openaiN → (PoolTag.openaiP, 0) ∈ (requestGptM env).2) := by
  have hflag : (azureLoop env.azAttempt false).2.1 = true := by
    rcases h400 with rfl | rfl | rfl <;>
      simp [azureLoop, azureLoopAux, h0, h1, h2]
  have htrace : (azureLoop env.azAttempt false).2.2 =
      [(PoolTag.azure, 0), (PoolTag.azure, 1), (PoolTag.azure, 2)] := by
    simp [azureLoop, azureLoopAux, h0, h1, h2]
  have hnone : (azureLoop env.azAttempt false).1 = none := by
    simp [azureLoop, azureLoopAux, h0, h1, h2]
  obtain ⟨rest, hrest, hopm⟩ := requestGptM_az_failed_trace env hn hnone
  refine ⟨hflag, htrace, ?_, ?_⟩
  · intro j hj
    rw [hrest, htrace]
    interval_cases j <;> simp
  · intro hop
    rw [hrest]
    exact List.mem_append_right _ (hopm hop)

/-- Witness for C2 at the counterexample environment. -/
theorem c2_witness :
    (azureLoop c2Env.azAttempt false).2.1 = true ∧
    (azureLoop c2Env.azAttempt false).2.2 =
      [(PoolTag.azure, 0), (PoolTag.azure, 1), (PoolTag.azure, 2)] ∧
    (∀ j, j < 3 → (PoolTag.azure, j) ∈ (requestGptM c2Env).2) ∧
    (0 < c2Env.openaiN → (PoolTag.openaiP, 0) ∈ (requestGptM c2Env).2) :=
  c2_flag_scope_amended c2Env (by decide) (some 400) none none rfl rfl rfl
    (Or.inl rfl)

/-! ## The Gemini wire contract (gemini types file and `doRequestGemini`)

JSON values are modelled by the `Json` inductive; numbers carry their
value as a rational (the two `float32` fields hold the literals `0.9`
and `1`, whose exact floating-point values are immaterial to the shape
claims).  Go's `encoding/json` marshals struct fields in declaration
order under their tag names, and map keys in sorted order; both rules
are reproduced below. -/

inductive Json where
  | str : String → Json
  | num : Rat → Json
  | arr : List Json → Json
  | obj : List (String × Json) → Json

def lookupKey : List (String × Json) → String → Option Json
  | [], _ => none
  | (k, v) :: kvs, key => if k == key then some v else lookupKey kvs key

def objKeys : Json → List String
  | .obj kvs => kvs.map (fun kv => kv.1)
  | _ => []

def objGet : Json → String → Option Json
  | .obj kvs, key => lookupKey kvs key
  | _, _ => none

/-! ### Request structs (gemini types file, with their `json:` tags) -/

structure GeminiRequestContentsMessagePart where
  text : String

structure GeminiRequestContentsMessage where
  role : String
  parts : List GeminiRequestContentsMessagePart

structure GeminiRequestGenerationConfig where
  temperature : Rat
  topK : Nat
  topP : Rat
  maxOutputTokens : Nat
  stopSequences : List String

structure GeminiRequest where
  messages : List GeminiRequestContentsMessage
  config : GeminiRequestGenerationConfig
  safetySettings : List (List (String × String))

def marshalGeminiPart (p : GeminiRequestContentsMessagePart) : Json :=
  .obj [("text", .str p.text)]

def marshalGeminiMessage (m : GeminiRequestContentsMessage) : Json :=
  .obj [("role", .str m.role), ("parts", .arr (m.parts.map marshalGeminiPart))]

/-- Field tags of `GeminiRequestGenerationConfig`: `temperature`,
`top_k`, `top_p`, `max_output_tokens`, `stop_sequences`. -/
def marshalGenerationConfig (g : GeminiRequestGenerationConfig) : Json :=
  .obj [("temperature", .num g.temperature), ("top_k", .num g.topK),
        ("top_p", .num g.topP), ("max_output_tokens", .num g.maxOutputTokens),
        ("stop_sequences", .arr (g.stopSequences.map Json.str))]

def insertPairSorted (p : String × String) :
    List (String × String) → List (String × String)
  | [] => [p]
  | q :: qs => if p.1 ≤ q.1 then p :: q :: qs else q :: insertPairSorted p qs

/-- Go marshals `map[string]interface` entries by sorted key. -/
def sortPairsByKey : List (String × String) → List (String × String)
  | [] => []
  | p :: ps => insertPairSorted p (sortPairsByKey ps)

def marshalSafetySetting (m : List (String × String)) : Json :=
  .obj ((sortPairsByKey m).map (fun kv => (kv.1, Json.str kv.2)))

/-- Marshal image of `GeminiRequest` under its tags: `contents`,
`generationConfig`, `safetySettings`, in declaration order. -/
def marshalGeminiRequest (r : GeminiRequest) : Json :=
  .obj [("contents", .arr (r.messages.map marshalGeminiMessage)),
        ("generationConfig", marshalGenerationConfig r.config),
        ("safetySettings", .arr (r.safetySettings.map marshalSafetySetting))]

/-- The request value built by `doRequestGemini`, lines 228–262. -/
def geminiRequestValue (prompt : String) : GeminiRequest :=
  { messages := [{ role := "user", parts := [{ text := prompt }] }],
    config := { temperature := (0.9 : Rat), topK := 1, topP := 1,
                maxOutputTokens := 2048, stopSequences := [] },
    safetySettings :=
      [[("category", "HARM_CATEGORY_HARASSMENT"), ("threshold", "BLOCK_NONE")],
       [("category", "HARM_CATEGORY_HATE_SPEECH"), ("threshold", "BLOCK_NONE")],
       [("category", "HARM_CATEGORY_SEXUALLY_EXPLICIT"), ("threshold", "BLOCK_NONE")],
       [("category", "HARM_CATEGORY_DANGEROUS_CONTENT"), ("threshold", "BLOCK_NONE")]] }

/-! ### Response structs and their unmarshalling -/

structure GeminiResponseCandidateContentPart where
  text : String

structure GeminiResponseCandidateContent where
  parts : List GeminiResponseCandidateContentPart

structure GeminiResponseCandidate where
  content : GeminiResponseCandidateContent

structure GeminiResponse where
  candidates : List GeminiResponseCandidate

/-- Embedding of `concatenateStrings`, lines 300–306. -/
def concatenateStrings (parts : List GeminiResponseCandidateContentPart) : String :=
  parts.foldl (fun acc p => acc ++ p.text) ""

/-- Unmarshalling under the response tags, with `encoding/json`
semantics: an absent key leaves the zero value, a key of the wrong type
is an error, unknown keys are ignored. -/
def parseGeminiPart (j : Json) : Option GeminiResponseCandidateContentPart :=
  match j with
  | .obj kvs =>
    match lookupKey kvs "text" with
    | none => some { text := "" }
    | some (.str s) => some { text := s }
    | some _ => none
  | _ => none

def parseAll {α : Type} (f : Json → Option α) : List Json → Option (List α)
  | [] => some []
  | j :: js =>
    match f j with
    | none => none
    | some a => (parseAll f js).map (fun as => a :: as)

def parseGeminiContent (j : Json) : Option GeminiResponseCandidateContent :=
  match j with
  | .obj kvs =>
    match lookupKey kvs "parts" with
    | none => some { parts := [] }
    | some (.arr js) => (parseAll parseGeminiPart js).map (fun ps => { parts := ps })
    | some _ => none
  | _ => none

def parseGeminiCandidate (j : Json) : Option GeminiResponseCandidate :=
  match j with
  | .obj kvs =>
    match lookupKey kvs "content" with
    | none => some { content := { parts := [] } }
    | some jc => (parseGeminiContent jc).map (fun c => { content := c })
  | _ => none

def parseGeminiResponse (j : Json) : Option GeminiResponse :=
  match j with
  | .obj kvs =>
    match lookupKey kvs "candidates" with
    | none => some { candidates := [] }
    | some (.arr js) => (parseAll parseGeminiCandidate js).map (fun cs => { candidates := cs })
    | some _ => none
  | _ => none

/-! ### The Gemini HTTP call (`doRequestGemini`, lines 218–298) -/

/-- Outcome of the HTTP exchange: transport error (`client.Do` fails),
body read error, or a status and a body (`none` when the bytes are not
valid JSON). -/
inductive GeminiHttpResult where
  | transportError
  | readError (status : Nat)
  | body (status : Nat) (json : Option Json)

/-- Oracle for one `doRequestGemini` call: whether `json.Marshal`
succeeds (it cannot actually fail for this payload, but the source
handles the case), and the HTTP outcome. -/
structure GeminiWire where
  marshalOk : Bool
  http : GeminiHttpResult

/-- Embedding of `doRequestGemini`: serialization failure, transport
failure, read failure, non-200 status, unparseable body, empty
candidate list, or the concatenated first-candidate parts.  The
outbound payload is `marshalGeminiRequest (geminiRequestValue prompt)`.
Error strings are the `fmt.Errorf` prefixes of lines 265–294. -/
def doRequestGeminiM (prompt : String) (w : GeminiWire) : Except String String :=
  if !w.marshalOk then .error "Gemini serialization failure"
  else
    match w.http with
    | .transportError => .error "Gemini failure"
    | .readError _ => .error "Gemini read response"
    | .body status jsonOpt =>
      if status ≠ 200 then .error "Gemini status"
      else
        match jsonOpt with
        | none => .error "Gemini parse response"
        | some j =>
          match parseGeminiResponse j with
          | none => .error "Gemini parse response"
          | some result =>
            match result.candidates with
            | [] => .error "Gemini: No response"
            | c :: _ => .ok (concatenateStrings c.content.parts)

/-! ## Claim C6: serialization failure as a terminal, distinct outcome

The claim fails on the code: `requestGpt` treats a Gemini serialization
failure like any other attempt failure — it logs it, retries up to the
3-attempt cap, and finally returns the flattened exhaustion error — so
`Summarize` can never fail with a distinct serialization outcome. -/

/-- Wire oracle whose marshalling step fails. -/
def c6Wire : GeminiWire := { marshalOk := false, http := .transportError }

/-- Dispatcher environment for the C6 counterexample: only a Gemini
pool, every attempt failing at serialization. -/
def c6Env : DispatchEnv :=
  { azureN := 0, openaiN := 0, gcpN := 1,
    azAttempt := fun _ => .error none,
    opAttempt := fun _ => .error "unused",
    gcAttempt := fun _ => doRequestGeminiM "p" c6Wire }

/-- C6 counterexample: every Gemini attempt fails with the
serialization error, yet the attempt is retried twice more (three
attempts traced) and the call fails with the flattened exhaustion
error, not a serialization failure. -/
theorem c6_counterexample :
    c6Env.gcAttempt 0 = .error "Gemini serialization failure" ∧
    requestGptM c6Env = ((none, some "all retries have failed"),
      [(PoolTag.gcp, 0), (PoolTag.gcp, 1), (PoolTag.gcp, 2)]) :=
  ⟨rfl, by decide⟩

/-- C6 (amended): a Gemini payload serialization failure is reported by
`doRequestGemini` as an error, but it is not terminal for the call: the
dispatcher retries it like a transient failure up to the per-pool
attempt cap, and the only error the dispatcher (and hence `Summarize`)
ever surfaces is the flattened exhaustion error — never a distinct
serialization outcome. -/
theorem c6_serialization_not_terminal :
    (∀ p w, w.marshalOk = false →
      doRequestGeminiM p w = .error "Gemini serialization failure") ∧
    (∀ env : DispatchEnv, (requestGptM env).1.2 = none ∨
      (requestGptM env).1.2 = some "all retries have failed") ∧
    (∀ env : DispatchEnv, env.azureN = 0 → env.openaiN = 0 → 0 < env.gcpN →
      (∀ k, k < 3 → ∃ e, env.gcAttempt k = Except.error e) →
      requestGptM env = ((none, some "all retries have failed"),
        [(PoolTag.gcp, 0), (PoolTag.gcp, 1), (PoolTag.gcp, 2)])) := by
  refine ⟨?_, ?_, ?_⟩
  · intro p w hw
    simp [doRequestGeminiM, hw]
  · intro env
    rcases requestGptM_shape env with ⟨s, tr, h⟩ | ⟨tr, h⟩ <;> rw [h]
    · exact Or.inl rfl
    · exact Or.inr rfl
  · intro env h0 h1 h2 hf
    obtain ⟨e0, he0⟩ := hf 0 (by norm_num)
    obtain ⟨e1, he1⟩ := hf 1 (by norm_num)
    obtain ⟨e2, he2⟩ := hf 2 (by norm_num)
    simp [requestGptM, azureLoop, azureLoopAux, poolLoop, poolLoopAux,
      h0, h1, h2, he0, he1, he2]

/-- Witness for C6 at the counterexample environment. -/
theorem c6_witness :
    doRequestGeminiM "p" c6Wire = .error "Gemini serialization failure" ∧
    requestGptM c6Env = ((none, some "all retries have failed"),
      [(PoolTag.gcp, 0), (PoolTag.gcp, 1), (PoolTag.gcp, 2)]) :=
  ⟨c6_serialization_not_terminal.1 "p" c6Wire rfl,
   c6_serialization_not_terminal.2.2 c6Env rfl rfl (by decide)
     (fun _ _ => ⟨"Gemini serialization failure", rfl⟩)⟩

/-! ## Claim C7: the exact Gemini JSON wire shape

The outer request keys (`contents` with `role`/`parts`/`text`,
`generationConfig`, `safetySettings` with `category`/`threshold`) and
the whole response shape match the claim, but the `generationConfig`
member keys are the snake_case tags `top_k`, `top_p`,
`max_output_tokens`, `stop_sequences`, not the claimed camelCase
`topK`, `topP`, `maxOutputTokens`, `stopSequences`. -/

/-- Request shape per the amended claim (snake_case generation-config
keys), written out as a literal JSON term. -/
def specRequestJson (prompt : String) : Json :=
  .obj [("contents", .arr [.obj [("role", .str "user"),
          ("parts", .arr [.obj [("text", .str prompt)]])]]),
        ("generationConfig", .obj
          [("temperature", .num (0.9 : Rat)), ("top_k", .num 1),
           ("top_p", .num 1), ("max_output_tokens", .num 2048),
           ("stop_sequences", .arr [])]),
        ("safetySettings", .arr
          [.obj [("category", .str "HARM_CATEGORY_HARASSMENT"),
                 ("threshold", .str "BLOCK_NONE")],
           .obj [("category", .str "HARM_CATEGORY_HATE_SPEECH"),
                 ("threshold", .str "BLOCK_NONE")],
           .obj [("category", .str "HARM_CATEGORY_SEXUALLY_EXPLICIT"),
                 ("threshold", .str "BLOCK_NONE")],
           .obj [("category", .str "HARM_CATEGORY_DANGEROUS_CONTENT"),
                 ("threshold", .str "BLOCK_NONE")]])]

/-- Response shape stated by the claim, one candidate per outer list
entry, one part per inner entry. -/
def specResponseJson (texts : List (List String)) : Json :=
  .obj [("candidates", .arr (texts.map (fun parts =>
    .obj [("content", .obj [("parts", .arr (parts.map (fun t =>
      .obj [("text", .str t)])))])])))]

/-- C7 counterexample: the serialized request's `generationConfig`
member carries the snake_case keys, which differ from the claimed
camelCase keys. -/
theorem c7_counterexample :
    (objGet (marshalGeminiRequest (geminiRequestValue "p"))
        "generationConfig").map objKeys =
      some ["temperature", "top_k", "top_p", "max_output_tokens",
        "stop_sequences"] ∧
    (["temperature", "top_k", "top_p", "max_output_tokens",
        "stop_sequences"] : List String) ≠
      ["temperature", "topK", "topP", "maxOutputTokens", "stopSequences"] := by
  refine ⟨rfl, by decide⟩

theorem parseGeminiParts (parts : List String) :
    parseAll parseGeminiPart (parts.map (fun t => Json.obj [("text", Json.str t)])) =
      some (parts.map (fun t => ({ text := t } : GeminiResponseCandidateContentPart))) := by
  induction parts with
  | nil => rfl
  | cons t ts ih => simp [parseAll, ih, parseGeminiPart, lookupKey]

theorem parseGeminiCandidates (texts : List (List String)) :
    parseAll parseGeminiCandidate
      (texts.map (fun parts => Json.obj [("content", Json.obj [("parts",
        Json.arr (parts.map (fun t => Json.obj [("text", Json.str t)])))])])) =
      some (texts.map (fun parts =>
        ({ content := { parts := parts.map (fun t => { text := t }) } } :
          GeminiResponseCandidate))) := by
  induction texts with
  | nil => rfl
  | cons p ps ih =>
    simp [parseAll, ih, parseGeminiCandidate, parseGeminiContent,
      lookupKey, parseGeminiParts p]

/-- C7 (amended): the outbound Gemini request serializes to exactly the
shape of the claim with the `generationConfig` member keys corrected to
the snake_case tags `temperature, top_k, top_p, max_output_tokens,
stop_sequences`; and the completion is read from exactly the claimed
response shape — parsing it recovers one candidate per entry with its
`content.parts[].text` values. -/
theorem c7_wire_shape_amended (prompt : String) (texts : List (List String)) :
    marshalGeminiRequest (geminiRequestValue prompt) = specRequestJson prompt ∧
    parseGeminiResponse (specResponseJson texts) =
      some { candidates := texts.map (fun parts =>
        { content := { parts := parts.map (fun t => { text := t }) } }) } := by
  constructor
  · have hlc : (['c', 'a', 't', 'e', 'g', 'o', 'r', 'y'] : List Char) ≤
        ['t', 'h', 'r', 'e', 's', 'h', 'o', 'l', 'd'] := by decide
    simp [marshalGeminiRequest, geminiRequestValue, specRequestJson,
      marshalGenerationConfig, marshalGeminiMessage, marshalGeminiPart,
      marshalSafetySetting, sortPairsByKey, insertPairSorted, hlc]
  · simp [parseGeminiResponse, specResponseJson, lookupKey, parseGeminiCandidates]

/-! ## The per-window cache protocol (`Summarize`, lines 136–151)

The cache collaborator is modelled as an association list with Go's
`Get`/`Set` interface; `GetMD5Hash` is the external parameter `md5`.
The per-window work of lines 136–151 is `processWindows`, which also
counts dispatcher calls so that "zero additional dispatches" is a
statement about the count.  The outer `Option` is `none` when the code
would dereference the nil completion of an ill-formed dispatcher
result. -/

structure CacheS where
  entries : List (String × String)
deriving DecidableEq

def cacheGet (c : CacheS) (key : String) : Option String :=
  (c.entries.find? (fun e => e.1 == key)).map (fun e => e.2)

def cacheSet (c : CacheS) (key v : String) : CacheS :=
  ⟨(key, v) :: c.entries⟩

/-- Cache key of a window: `"gpt:" + GetMD5Hash(prompt)`, line 136. -/
def gptKey (md5 : String → String) (prompt : String) : String :=
  "gpt:" ++ md5 prompt

/-- Lines 136–151 folded over the window prompts: consult the cache
under the window's key; on a hit reuse the stored value with no
dispatch; on a miss dispatch, on success store under the same key, on
error abort the whole call.  Returns the accumulated summary (each
partial result followed by a line break), the final cache, and the
number of dispatcher calls made. -/
def processWindows (md5 : String → String)
    (gpt : String → Option String × Option String) :
    CacheS → List String → Option (Except String (String × CacheS × Nat))
  | cache, [] => some (.ok ("", cache, 0))
  | cache, w :: ws =>
    match cacheGet cache (gptKey md5 w) with
    | some v =>
      match processWindows md5 gpt cache ws with
      | none => none
      | some (.error e) => some (.error e)
      | some (.ok (rest, c2, n)) => some (.ok (v ++ "\n" ++ rest, c2, n))
    | none =>
      match gpt w with
      | (_, some e) => some (.error e)
      | (some content, none) =>
        match processWindows md5 gpt (cacheSet cache (gptKey md5 w) content) ws with
        | none => none
        | some (.error e) => some (.error e)
        | some (.ok (rest, c2, n)) => some (.ok (content ++ "\n" ++ rest, c2, n + 1))
      | (none, none) => none

theorem cacheGet_set_self (c : CacheS) (k v : String) :
    cacheGet (cacheSet c k v) k = some v := by
  simp [cacheGet, cacheSet, List.find?]

theorem cacheGet_set_other (c : CacheS) (k k' v : String) (h : k' ≠ k) :
    cacheGet (cacheSet c k v) k' = cacheGet c k' := by
  simp only [cacheGet, cacheSet, List.find?]
  rw [beq_eq_false_iff_ne.mpr (Ne.symm h)]

/-- Entries present before a successful window pass are still readable
after it: a set only happens on a miss of its own key, so it can never
shadow a present entry. -/
theorem processWindows_mono (md5 : String → String)
    (gpt : String → Option String × Option String) :
    ∀ ps c out, processWindows md5 gpt c ps = some (.ok out) →
      ∀ key v, cacheGet c key = some v → cacheGet out.2.1 key = some v := by
  intro ps
  induction ps with
  | nil =>
    intro c out h key v hv
    simp only [processWindows, Option.some.injEq, Except.ok.injEq] at h
    rw [← h]
    exact hv
  | cons w ws ih =>
    intro c out h key v hv
    simp only [processWindows] at h
    cases hg : cacheGet c (gptKey md5 w) with
    | some v0 =>
      rw [hg] at h
      cases hrec : processWindows md5 gpt c ws with
      | none => rw [hrec] at h; exact absurd h (by simp)
      | some r =>
        rw [hrec] at h
        cases r with
        | error e => exact absurd h (by simp)
        | ok o =>
          obtain ⟨rest, c2, n⟩ := o
          simp only [Option.some.injEq, Except.ok.injEq] at h
          rw [← h]
          exact ih c (rest, c2, n) hrec key v hv
    | none =>
      rw [hg] at h
      rcases hgpt : gpt w with ⟨r1, r2⟩
      rw [hgpt] at h
      cases r2 with
      | some e => exact absurd h (by simp)
      | none =>
        cases r1 with
        | none => exact absurd h (by simp)
        | some content =>
          simp only [] at h
          have hkey : key ≠ gptKey md5 w := by
            intro hk; rw [hk, hg] at hv; exact Option.noConfusion hv
          cases hrec : processWindows md5 gpt
              (cacheSet c (gptKey md5 w) content) ws with
          | none => rw [hrec] at h; exact absurd h (by simp)
          | some r =>
            rw [hrec] at h
            cases r with
            | error e => exact absurd h (by simp)
            | ok o =>
              obtain ⟨rest, c2, n⟩ := o
              simp only [Option.some.injEq, Except.ok.injEq] at h
              rw [← h]
              refine ih _ (rest, c2, n) hrec key v ?_
              rw [cacheGet_set_other c (gptKey md5 w) key content hkey]
              exact hv

/-- A second pass over the same window prompts, starting from the cache
a successful first pass produced, performs zero dispatcher calls,
touches no backend (`gpt2` is arbitrary), and reproduces the same
summary and cache. -/
theorem processWindows_second (md5 : String → String)
    (gpt gpt2 : String → Option String × Option String) :
    ∀ ps c out, processWindows md5 gpt c ps = some (.ok out) →
      processWindows md5 gpt2 out.2.1 ps = some (.ok (out.1, out.2.1, 0)) := by
  intro ps
  induction ps with
  | nil =>
    intro c out h
    simp only [processWindows, Option.some.injEq, Except.ok.injEq] at h
    rw [← h]
    rfl
  | cons w ws ih =>
    intro c out h
    simp only [processWindows] at h
    cases hg : cacheGet c (gptKey md5 w) with
    | some v0 =>
      rw [hg] at h
      cases hrec : processWindows md5 gpt c ws with
      | none => rw [hrec] at h; exact absurd h (by simp)
      | some r =>
        rw [hrec] at h
        cases r with
        | error e => exact absurd h (by simp)
        | ok o =>
          obtain ⟨rest, c2, n⟩ := o
          simp only [Option.some.injEq, Except.ok.injEq] at h
          have hg2 : cacheGet c2 (gptKey md5 w) = some v0 :=
            processWindows_mono md5 gpt ws c (rest, c2, n) hrec _ _ hg
          have hrec2 := ih c (rest, c2, n) hrec
          rw [← h]
          simp only [processWindows, hg2, hrec2]
    | none =>
      rw [hg] at h
      rcases hgpt : gpt w with ⟨r1, r2⟩
      rw [hgpt] at h
      cases r2 with
      | some e => exact absurd h (by simp)
      | none =>
        cases r1 with
        | none => exact absurd h (by simp)
        | some content =>
          simp only [] at h
          cases hrec : processWindows md5 gpt
              (cacheSet c (gptKey md5 w) content) ws with
          | none => rw [hrec] at h; exact absurd h (by simp)
          | some r =>
            rw [hrec] at h
            cases r with
            | error e => exact absurd h (by simp)
            | ok o =>
              obtain ⟨rest, c2, n⟩ := o
              simp only [Option.some.injEq, Except.ok.injEq] at h
              have hg2 : cacheGet c2 (gptKey md5 w) = some content := by
                refine processWindows_mono md5 gpt ws _ (rest, c2, n) hrec _ _ ?_
                exact cacheGet_set_self c (gptKey md5 w) content
              have hrec2 := ih _ (rest, c2, n) hrec
              rw [← h]
              simp only [processWindows, hg2, hrec2]

/-! ## Claim C8: cache consulted before dispatch; hit short-circuits;
miss dispatches once and stores under the same key -/

/-- C8: for each window the cache is consulted under the
content-addressed key of the window's exact text before any dispatch;
a hit reuses the stored value with zero dispatches for that window; a
miss dispatches once and stores the completion under the same key; and
a second pass over identical windows — with an arbitrary, never-called
backend — performs zero dispatches and reproduces the same result. -/
theorem c8_cache_protocol (md5 : String → String)
    (gpt gpt2 : String → Option String × Option String)
    (c : CacheS) (w : String) (ws : List String) :
    (∀ v rest c2 n, cacheGet c (gptKey md5 w) = some v →
      processWindows md5 gpt c ws = some (.ok (rest, c2, n)) →
      processWindows md5 gpt c (w :: ws) =
        some (.ok (v ++ "\n" ++ rest, c2, n))) ∧
    (∀ content rest c2 n, cacheGet c (gptKey md5 w) = none →
      gpt w = (some content, none) →
      processWindows md5 gpt (cacheSet c (gptKey md5 w) content) ws =
        some (.ok (rest, c2, n)) →
      processWindows md5 gpt c (w :: ws) =
        some (.ok (content ++ "\n" ++ rest, c2, n + 1)) ∧
      cacheGet (cacheSet c (gptKey md5 w) content) (gptKey md5 w) =
        some content) ∧
    (∀ ps out, processWindows md5 gpt c ps = some (.ok out) →
      processWindows md5 gpt2 out.2.1 ps = some (.ok (out.1, out.2.1, 0))) := by
  refine ⟨?_, ?_, ?_⟩
  · intro v rest c2 n hv hws
    simp only [processWindows, hv, hws]
  · intro content rest c2 n hmiss hgpt hws
    constructor
    · simp only [processWindows, hmiss, hgpt, hws]
    · exact cacheGet_set_self c (gptKey md5 w) content
  · intro ps out h
    exact processWindows_second md5 gpt gpt2 ps c out h

/-- Witness for C8 at a concrete run: one window, empty cache; the
first pass dispatches once, the second pass (against a backend that
would fail) dispatches zero times and returns the same summary. -/
theorem c8_witness :
    processWindows (fun s => s) (fun _ => (some "S", none)) ⟨[]⟩ ["w"] =
      some (.ok ("S\n", ⟨[("gpt:w", "S")]⟩, 1)) ∧
    processWindows (fun s => s) (fun _ => (none, some "boom"))
        ⟨[("gpt:w", "S")]⟩ ["w"] =
      some (.ok ("S\n", ⟨[("gpt:w", "S")]⟩, 0)) := by
  have h1 : processWindows (fun s => s) (fun _ => (some "S", none)) ⟨[]⟩ ["w"] =
      some (.ok ("S\n", ⟨[("gpt:w", "S")]⟩, 1)) := rfl
  refine ⟨h1, ?_⟩
  have h2 := (c8_cache_protocol (fun s => s) (fun _ => (some "S", none))
    (fun _ => (none, some "boom")) ⟨[]⟩ "w" []).2.2 ["w"]
    ("S\n", ⟨[("gpt:w", "S")]⟩, 1) h1
  exact h2

/-! ## The sanitizer (`PruneInvisibleCharacters`, lines 308–315)

`unicode.IsPrint` and `unicode.IsSpace` are the external Unicode
tables, taken as parameters; `strings.Map` with a `-1` return drops the
rune, which is a filterMap. -/

def pruneInvisibleCharacters (isPrint isSpace : Char → Bool) (s : String) : String :=
  ⟨s.data.filterMap (fun r => if isPrint r || isSpace r then some r else none)⟩

theorem filterMap_guard_eq_filter (p : Char → Bool) :
    ∀ l : List Char,
      l.filterMap (fun r => if p r then some r else none) = l.filter p := by
  intro l
  induction l with
  | nil => rfl
  | cons c cs ih =>
    by_cases h : p c = true
    · simp [List.filterMap_cons, List.filter_cons, h, ih]
    · simp only [Bool.not_eq_true] at h
      simp [List.filterMap_cons, List.filter_cons, h, ih]

/-! ## Claim C9: the sanitizer removes exactly the non-printable
non-whitespace characters, preserves order, and is idempotent -/

/-- C9: the sanitizer keeps exactly the characters that are printable
or whitespace (a filter, so all kept characters retain their relative
order and are unchanged), its output is a sublist of the input, every
printable-or-whitespace character of the input survives, and the map is
idempotent. -/
theorem c9_prune_exact_idempotent (isPrint isSpace : Char → Bool) (s : String) :
    (pruneInvisibleCharacters isPrint isSpace s).data =
      s.data.filter (fun r => isPrint r || isSpace r) ∧
    (pruneInvisibleCharacters isPrint isSpace s).data.Sublist s.data ∧
    (∀ r ∈ s.data, (isPrint r || isSpace r) = true →
      r ∈ (pruneInvisibleCharacters isPrint isSpace s).data) ∧
    pruneInvisibleCharacters isPrint isSpace
        (pruneInvisibleCharacters isPrint isSpace s) =
      pruneInvisibleCharacters isPrint isSpace s := by
  have h1 : (pruneInvisibleCharacters isPrint isSpace s).data =
      s.data.filter (fun r => isPrint r || isSpace r) :=
    filterMap_guard_eq_filter _ s.data
  refine ⟨h1, ?_, ?_, ?_⟩
  · rw [h1]; exact List.filter_sublist s.data
  · intro r hr hp
    rw [h1]
    exact List.mem_filter.mpr ⟨hr, hp⟩
  · show (⟨(pruneInvisibleCharacters isPrint isSpace s).data.filterMap _⟩ : String) = _
    rw [filterMap_guard_eq_filter, h1, List.filter_filter]
    simp only [Bool.and_self]
    rw [← h1]

/-! ## The orchestrator (`Summarize`, lines 79–154)

The tokenizer, the MD5 hash and the Unicode printability tables are the
external parameters of `SummEnv`; the dispatcher is the oracle `gpt`
standing for one `requestGpt` call (its two components mirror Go's
`(*string, error)`).  The source's single loop both chunks and
dispatches; since the chunk positions never depend on the dispatch
results, it is embedded as `chunkAux` followed by `processWindows` over
the produced window texts.  The recursion of line 153 and the possible
non-progress of the chunk loop are carried by fuel: `none` means fuel
ran out (or an ill-formed dispatcher result was dereferenced), never a
return of the function. -/

/-- Prompt template of line 93. -/
def chinesePromptStr : String :=
  "In Chinese, write a case brief for the following judgment, includes the facts, procedural history, holdings, rationales for each holding, and final disposition: \n\n"

/-- Prompt template of line 95. -/
def englishPromptStr : String :=
  "Write a case brief for the following judgment, includes the facts, procedural history, holdings, rationales for each holding, and final disposition: \n\n"

/-- Matches of `chineseMatcher` (`[一-龥]`), each one character. -/
def countChineseChars (s : String) : Nat :=
  (s.data.filter (fun c => decide (0x4e00 ≤ c.toNat ∧ c.toNat ≤ 0x9fa5))).length

/-- Matches of `englishMatcher` (`[a-zA-Z]`), each one character. -/
def countEnglishChars (s : String) : Nat :=
  (s.data.filter (fun c =>
    decide (('a' ≤ c ∧ c ≤ 'z') ∨ ('A' ≤ c ∧ c ≤ 'Z')))).length

structure SummEnv where
  isPrint : Char → Bool
  isSpace : Char → Bool
  tok : String → Nat
  md5 : String → String

/-- Embedding of `Summarize`, lines 79–154, with fuel. -/
def summarizeFuel (env : SummEnv) (gpt : String → Option String × Option String) :
    Nat → CacheS → String → Option ((Option String × Option String) × CacheS)
  | 0, _, _ => none
  | fuel + 1, cache, text0 =>
    let text := pruneInvisibleCharacters env.isPrint env.isSpace text0
    if text.length = 0 then some ((some text, none), cache)
    else
      let prompt :=
        if countChineseChars text ≥ countEnglishChars text
        then chinesePromptStr else englishPromptStr
      if env.tok text ≤ 25000 then
        match gpt (prompt ++ text) with
        | (content, none) => some ((content, none), cache)
        | (_, some e) => some ((none, some e), cache)
      else
        let texts := text.splitOn "\n"
        match chunkAux env.tok (env.tok prompt) texts fuel 0 with
        | none => none
        | some ranges =>
          match processWindows env.md5 gpt cache
              (ranges.map (fun r => windowText prompt (windowLines texts r))) with
          | none => none
          | some (.error e) => some ((none, some e), cache)
          | some (.ok (summary, c2, _)) => summarizeFuel env gpt fuel c2 summary

/-- Exactly one of the result pointer and the error is present. -/
def exclusiveResult (r : Option String × Option String) : Prop :=
  (r.1.isSome ∧ r.2 = none) ∨ (r.1 = none ∧ r.2.isSome)

/-! ## Claim C10: exactly one of result and error, never both or neither -/

/-- C10: every return of the dispatcher carries exactly one of a
present completion or a present error; and — given a dispatcher with
that property — every return of `Summarize` (any fuel, any cache, any
input, including the sanitized-to-empty trivial case) carries exactly
one of a present result string or a present error, never both and
never neither, with no partial summary accompanying an error. -/
theorem c10_result_error_exclusive :
    (∀ env : DispatchEnv, exclusiveResult (requestGptM env).1) ∧
    (∀ (env : SummEnv) (gpt : String → Option String × Option String)
        (fuel : Nat) (cache : CacheS) (text : String)
        (out : (Option String × Option String) × CacheS),
      (∀ p, exclusiveResult (gpt p)) →
      summarizeFuel env gpt fuel cache text = some out →
      exclusiveResult out.1) := by
  constructor
  · intro env
    rcases requestGptM_shape env with ⟨s, tr, h⟩ | ⟨tr, h⟩ <;> rw [h]
    · exact Or.inl ⟨rfl, rfl⟩
    · exact Or.inr ⟨rfl, rfl⟩
  · intro env gpt fuel
    induction fuel with
    | zero => intro cache text out _ h; exact absurd h (by simp [summarizeFuel])
    | succ n ih =>
      intro cache text out hg h
      rw [summarizeFuel] at h
      simp only [] at h
      by_cases hempty :
          (pruneInvisibleCharacters env.isPrint env.isSpace text).length = 0
      · rw [if_pos hempty] at h
        simp only [Option.some.injEq] at h
        rw [← h]
        exact Or.inl ⟨rfl, rfl⟩
      · rw [if_neg hempty] at h
        by_cases hbase : env.tok (pruneInvisibleCharacters env.isPrint env.isSpace text) ≤ 25000
        · rw [if_pos hbase] at h
          rcases hgpt : gpt ((if countChineseChars (pruneInvisibleCharacters env.isPrint env.isSpace text) ≥
              countEnglishChars (pruneInvisibleCharacters env.isPrint env.isSpace text)
              then chinesePromptStr else englishPromptStr) ++
              pruneInvisibleCharacters env.isPrint env.isSpace text) with ⟨r1, r2⟩
          rw [hgpt] at h
          have hex : exclusiveResult (r1, r2) := by
            rw [← hgpt]; exact hg _
          cases r2 with
          | none =>
            simp only [Option.some.injEq] at h
            rw [← h]
            rcases hex with ⟨h1, _⟩ | ⟨_, h2⟩
            · exact Or.inl ⟨h1, rfl⟩
            · exact absurd h2 (by simp)
          | some e =>
            simp only [Option.some.injEq] at h
            rw [← h]
            exact Or.inr ⟨rfl, rfl⟩
        · rw [if_neg hbase] at h
          cases hchunk : chunkAux env.tok
              (env.tok (if countChineseChars (pruneInvisibleCharacters env.isPrint env.isSpace text) ≥
                countEnglishChars (pruneInvisibleCharacters env.isPrint env.isSpace text)
                then chinesePromptStr else englishPromptStr))
              ((pruneInvisibleCharacters env.isPrint env.isSpace text).splitOn "\n") n 0 with
          | none => rw [hchunk] at h; exact absurd h (by simp)
          | some ranges =>
            rw [hchunk] at h
            simp only [] at h
            cases hpw : processWindows env.md5 gpt cache
                (ranges.map (fun r => windowText
                  (if countChineseChars (pruneInvisibleCharacters env.isPrint env.isSpace text) ≥
                    countEnglishChars (pruneInvisibleCharacters env.isPrint env.isSpace text)
                    then chinesePromptStr else englishPromptStr)
                  (windowLines ((pruneInvisibleCharacters env.isPrint env.isSpace text).splitOn "\n") r))) with
            | none => rw [hpw] at h; exact absurd h (by simp)
            | some r =>
              rw [hpw] at h
              cases r with
              | error e =>
                simp only [Option.some.injEq] at h
                rw [← h]
                exact Or.inr ⟨rfl, rfl⟩
              | ok o =>
                obtain ⟨summary, c2, k⟩ := o
                exact ih c2 summary out hg h

/-- Orchestrator environment for the C10 witness: a sanitizer that
drops everything, so the trivial empty case is taken. -/
def c10Env : SummEnv :=
  { isPrint := fun _ => false, isSpace := fun _ => false,
    tok := fun _ => 0, md5 := fun s => s }

/-- Witness for C10 at a concrete run: the sanitized-to-empty case
returns a present (empty) result and no error. -/
theorem c10_witness :
    summarizeFuel c10Env (fun _ => (some "s", none)) 1 ⟨[]⟩ "x" =
      some ((some "", none), ⟨[]⟩) ∧
    exclusiveResult ((some "", none)) :=
  ⟨rfl, c10_result_error_exclusive.2 c10Env (fun _ => (some "s", none)) 1 ⟨[]⟩
    "x" ((some "", none), ⟨[]⟩) (fun _ => Or.inl ⟨rfl, rfl⟩) rfl⟩

end Summarizer
